import Mathlib

/-!
Verification of the battery state-of-charge (SOC) estimation server
(`src/server.py`): a neural-network batch predictor
(`run_neural_net_batch`), a coulomb-counting physics integrator
(`physics_integrate_soc`), and the fusion loop of the `/simulate`
endpoint (`predict_cycle`), plus the `/predict` endpoint
(`predict_single`).

Modelling conventions:
- Python floats are modelled as exact rationals (ℚ).
- `np.tanh` is transcendental, so the hidden-layer activation is an
  explicit function parameter `act : ℚ → ℚ`; every property proved
  here holds for an arbitrary activation, hence in particular for tanh.
- The numpy batch pipeline operates column-wise and is equivalent to
  mapping the per-sample computation over the zipped input lists.
- Fallible code (Python `times[-1]` raising IndexError on an empty
  list, caught by the endpoint's `except`) is modelled with `Option`.
-/

namespace SOC

/-- Configuration constant, `BATTERY_CAPACITY_AH = 27.0` (server.py line 30). -/
def BATTERY_CAPACITY_AH : ℚ := 27

/-- Configuration constant, `SERIES_CELLS = 96.0` (server.py line 31). -/
def SERIES_CELLS : ℚ := 96

/-- Configuration constant, `ML_WEIGHT = 0.35` (server.py line 32). -/
def ML_WEIGHT : ℚ := 0.35

/-- Configuration constant, `EPS = 1e-9` (server.py line 33). -/
def EPS : ℚ := 1e-9

/-- The parameter bundle loaded from `model_params.json` (server.py lines
44-54): hidden-layer weights `IW` (H rows of 3), output weights `LW`
(one row of H), hidden bias `b1` (length H), output bias `b2` (scalar),
per-channel input scaling bounds `x_min`/`x_max` (3-vectors) and output
scaling bounds `y_min`/`y_max` (scalars). -/
structure Params where
  IW : List (ℚ × ℚ × ℚ)
  LW : List ℚ
  b1 : List ℚ
  b2 : ℚ
  x_min : ℚ × ℚ × ℚ
  x_max : ℚ × ℚ × ℚ
  y_min : ℚ
  y_max : ℚ

/-- `voltage / SERIES_CELLS` (server.py line 69). -/
def cellVoltage (v : ℚ) : ℚ := v / SERIES_CELLS

/-- Per-channel clamp `np.maximum(x_min, np.minimum(x_max, X))`
(server.py line 74). -/
def clampCh (lo hi x : ℚ) : ℚ := max lo (min hi x)

/-- The normalization denominator `x_max - x_min` with the zero entries
replaced by `EPS`: `denom[denom == 0] = EPS` (server.py lines 76-77). -/
def safeDenom (lo hi : ℚ) : ℚ := if hi - lo = 0 then EPS else hi - lo

/-- One channel of `X_norm = 2.0 * (X_clamped - x_min) / denom - 1.0`
(server.py line 78). -/
def normChannel (lo hi x : ℚ) : ℚ := 2 * (clampCh lo hi x - lo) / safeDenom lo hi - 1

/-- Dot product of a weight row of `IW` with the normalized 3-channel
input column. -/
def dot3 (w x : ℚ × ℚ × ℚ) : ℚ := w.1 * x.1 + w.2.1 * x.2.1 + w.2.2 * x.2.2

/-- The raw network output for one sample:
`Z = tanh(IW @ X_norm + b1)`, `Y_norm = LW @ Z + b2`
(server.py lines 80-81), with the activation abstract. -/
def yNormOf (p : Params) (act : ℚ → ℚ) (current temp voltage : ℚ) : ℚ :=
  (List.zipWith (fun w z => w * z) p.LW
    ((p.IW.zip p.b1).map (fun wb =>
      act (dot3 wb.1
        (normChannel p.x_min.1 p.x_max.1 current,
         normChannel p.x_min.2.1 p.x_max.2.1 temp,
         normChannel p.x_min.2.2 p.x_max.2.2 (cellVoltage voltage)) + wb.2)))).sum + p.b2

/-- Denormalization and scale policy for one sample:
`soc_fraction = (Y_norm - (-1.0)) * (y_max - y_min) / (1.0 - (-1.0)) + y_min`,
then `soc_percent = soc_fraction * 100.0` when `y_max < 2.0`, else
`soc_fraction` (server.py lines 84-89). This is the value before the
final clamp of line 93. -/
def socPercentOf (p : Params) (act : ℚ → ℚ) (current temp voltage : ℚ) : ℚ :=
  (fun frac => if p.y_max < 2 then frac * 100 else frac)
    ((yNormOf p act current temp voltage - (-1)) * (p.y_max - p.y_min) / (1 - (-1)) + p.y_min)

/-- `run_neural_net_batch` (server.py lines 59-96): per-sample network
output followed by the final safety clamp
`[max(0.0, min(100.0, float(r))) for r in result]` (line 93). -/
def run_neural_net_batch (p : Params) (act : ℚ → ℚ)
    (currents temps voltages : List ℚ) : List ℚ :=
  (currents.zip (temps.zip voltages)).map
    (fun s => max 0 (min 100 (socPercentOf p act s.1 s.2.1 s.2.2)))

/-- Modelled from the spec, §4.2 step 7: the denormalization written as
`frac = (yNorm + 1) * (outputMax - outputMin) / 2 + outputMin`; to be
compared with the source form in `socPercentOf`. -/
def specDenorm (yNorm outMin outMax : ℚ) : ℚ :=
  (yNorm + 1) * (outMax - outMin) / 2 + outMin

/-- `delta_percent = (currents[i-1] * dt) / (BATTERY_CAPACITY_AH * 3600.0) * 100.0`
(server.py line 138). -/
def deltaOf (c dt : ℚ) : ℚ := c * dt / (BATTERY_CAPACITY_AH * 3600) * 100

/-- The post-step clamp of `physics_integrate_soc`:
`if next_soc >= 100.0: next_soc = 100.0` followed by
`max(0.0, min(100.0, next_soc))` (server.py lines 148-151). -/
def clamp100 (x : ℚ) : ℚ := max 0 (min 100 (if 100 ≤ x then 100 else x))

/-- The synthetic unit-spaced time basis `list(range(n))`
(server.py line 131). -/
def defaultTimes (n : ℕ) : List ℚ := (List.range n).map Nat.cast

/-- Time-basis resolution of `physics_integrate_soc`:
`if times is None or len(times) != n: times = list(range(n))`
(server.py lines 129-131). -/
def resolveTimes (times : Option (List ℚ)) (n : ℕ) : List ℚ :=
  match times with
  | none => defaultTimes n
  | some ts => if ts.length = n then ts else defaultTimes n

/-- The data consumed by loop step `i` of `physics_integrate_soc`
(server.py lines 135-136): the triple `(currents[i-1], times[i-1], times[i])`
for `i = 1, …, n-1`, built by pairing `currents` with adjacent time pairs. -/
def mkSteps (cs ts : List ℚ) : List (ℚ × ℚ × ℚ) :=
  List.zipWith (fun c p => (c, p.1, p.2)) cs (ts.zip ts.tail)

/-- The loop body of `physics_integrate_soc` (server.py lines 135-151),
producing the appended tail of the trajectory and, on early discharge,
`some discharge_time`: for each step, `dt = times[i] - times[i-1]`,
`next_soc = phys[-1] + delta_percent`; if `next_soc <= 0.0` append `0.0`,
record `times[i]` and stop; otherwise append the clamped value and
continue. -/
def physAux (soc : ℚ) : List (ℚ × ℚ × ℚ) → List ℚ × Option ℚ
  | [] => ([], none)
  | st :: rest =>
    if soc + deltaOf st.1 (st.2.2 - st.2.1) ≤ 0 then
      ([0], some st.2.2)
    else
      (clamp100 (soc + deltaOf st.1 (st.2.2 - st.2.1)) ::
         (physAux (clamp100 (soc + deltaOf st.1 (st.2.2 - st.2.1))) rest).1,
       (physAux (clamp100 (soc + deltaOf st.1 (st.2.2 - st.2.1))) rest).2)

/-- The index `k` (counting loop steps `i = k+1` of the source) at which
`next_soc <= 0.0` first happens, if ever: the observable "first
zero-crossing step" of `physAux`'s recursion. -/
def firstCross (soc : ℚ) : List (ℚ × ℚ × ℚ) → Option ℕ
  | [] => none
  | st :: rest =>
    if soc + deltaOf st.1 (st.2.2 - st.2.1) ≤ 0 then some 0
    else (firstCross (clamp100 (soc + deltaOf st.1 (st.2.2 - st.2.1))) rest).map
      (fun k => k + 1)

/-- `physics_integrate_soc` (server.py lines 116-155). Returns
`some (trajectory, discharge_time)`. The trajectory starts at
`start_soc` (line 127) and is extended by the loop; on early discharge
the recorded time is returned, otherwise `discharge_time = float(times[-1])`
(line 154) — which raises IndexError when the series is empty, caught by
the `/simulate` handler's `except`; that failure is modelled as `none`. -/
def physics_integrate_soc (currents : List ℚ) (times : Option (List ℚ))
    (start_soc : ℚ) : Option (List ℚ × ℚ) :=
  match (physAux start_soc (mkSteps currents (resolveTimes times currents.length))).2,
        (resolveTimes times currents.length).getLast? with
  | some d, _ =>
    some (start_soc :: (physAux start_soc (mkSteps currents (resolveTimes times currents.length))).1, d)
  | none, some t =>
    some (start_soc :: (physAux start_soc (mkSteps currents (resolveTimes times currents.length))).1, t)
  | none, none => none

/-- `/predict` endpoint `predict_single` (server.py lines 160-171): runs
the network on the singleton batch, clamps the first result to [0,100]
once more (line 166) and returns it; any failure (the `except` branch,
line 171) yields a null SOC, modelled as `none`. -/
def predict_single (p : Params) (act : ℚ → ℚ)
    (current voltage temperature : ℚ) : Option ℚ :=
  match (run_neural_net_batch p act [current] [temperature] [voltage]).head? with
  | none => none
  | some r => some (max 0 (min 100 r))

/-- `START_SOC = nn_socs[0] if (nn_socs and 0 <= nn_socs[0] <= 100) else 100.0`
(server.py line 188). -/
def startSocOf (nn_socs : List ℚ) : ℚ :=
  match nn_socs.head? with
  | none => 100
  | some s => if 0 ≤ s ∧ s ≤ 100 then s else 100

/-- The fusion loop of `predict_cycle` (server.py lines 195-206), iterating
over the physics trajectory: `ml = nn_socs[idx]` when in bounds else the
physics value; output `0.0` when the physics value is `<= 0`, otherwise
`ML_WEIGHT * ml + (1 - ML_WEIGHT) * ph` clamped to [0,100]. -/
def fuse : List ℚ → List ℚ → List ℚ
  | [], _ => []
  | ph :: ps, nns =>
    (if ph ≤ 0 then 0
     else max 0 (min 100 (ML_WEIGHT * nns.headD ph + (1 - ML_WEIGHT) * ph))) ::
      fuse ps nns.tail

/-- The result shape of the `/simulate` endpoint (server.py lines 211-215
and the empty shape of lines 180 and 219). -/
structure SimResult where
  soc : List ℚ
  discharge_time : Option ℚ
  total_points : ℕ
  deriving DecidableEq

/-- `/simulate` endpoint `predict_cycle` (server.py lines 173-219): length
guard on the three channels (lines 178-180), truthiness-faithful time
resolution `data.time if (data.time and len(data.time) == n) else None`
(line 182), neural batch, physics integration seeded by `startSocOf`,
fusion, and the `except` branch (line 219) returning the empty shape when
the integrator fails. -/
def predict_cycle (p : Params) (act : ℚ → ℚ)
    (current voltage temperature : List ℚ) (time : Option (List ℚ)) : SimResult :=
  if temperature.length = current.length ∧ voltage.length = current.length then
    let times : Option (List ℚ) :=
      match time with
      | some ts => if ts ≠ [] ∧ ts.length = current.length then some ts else none
      | none => none
    let nn_socs := run_neural_net_batch p act current temperature voltage
    match physics_integrate_soc current times (startSocOf nn_socs) with
    | none => ⟨[], none, 0⟩
    | some (phys, d) => ⟨fuse phys nn_socs, some d, (fuse phys nn_socs).length⟩
  else ⟨[], none, 0⟩

/-- A concrete parameter bundle used to instantiate theorems with
hypotheses at explicit inputs. -/
def pW : Params := ⟨[(1, 1, 1)], [1], [0], 0, (0, 0, 0), (1, 1, 1), 0, 1⟩

lemma nn_batch_mem (p : Params) (act : ℚ → ℚ) (cs ts vs : List ℚ) :
    ∀ x ∈ run_neural_net_batch p act cs ts vs, 0 ≤ x ∧ x ≤ 100 := by
  intro x hx
  simp only [run_neural_net_batch, List.mem_map] at hx
  obtain ⟨s, -, rfl⟩ := hx
  exact ⟨le_max_left _ _, max_le (by norm_num) (min_le_left _ _)⟩

lemma nn_batch_length (p : Params) (act : ℚ → ℚ) (cs ts vs : List ℚ)
    (hts : ts.length = cs.length) (hvs : vs.length = cs.length) :
    (run_neural_net_batch p act cs ts vs).length = cs.length := by
  simp [run_neural_net_batch, hts, hvs]

/-- C3: for equal-length finite input arrays, `run_neural_net_batch`
returns a list of the same length with every element in [0,100]; values
outside the normalization bounds are saturated into `[inputMin, inputMax]`
by the channel clamp, never rejected. -/
theorem predict_length_and_range (p : Params) (act : ℚ → ℚ) (cs ts vs : List ℚ)
    (hts : ts.length = cs.length) (hvs : vs.length = cs.length) :
    (run_neural_net_batch p act cs ts vs).length = cs.length ∧
    (∀ x ∈ run_neural_net_batch p act cs ts vs, 0 ≤ x ∧ x ≤ 100) ∧
    (∀ lo hi x : ℚ, lo ≤ hi → lo ≤ clampCh lo hi x ∧ clampCh lo hi x ≤ hi) :=
  ⟨nn_batch_length p act cs ts vs hts hvs, nn_batch_mem p act cs ts vs,
   fun _ _ _ h => ⟨le_max_left _ _, max_le h (min_le_left _ _)⟩⟩

theorem predict_length_and_range_witness :
    (([25] : List ℚ).length = ([3] : List ℚ).length ∧
     ([7] : List ℚ).length = ([3] : List ℚ).length) ∧
    ((run_neural_net_batch pW id [3] [25] [7]).length = ([3] : List ℚ).length ∧
     (∀ x ∈ run_neural_net_batch pW id [3] [25] [7], 0 ≤ x ∧ x ≤ 100) ∧
     (∀ lo hi x : ℚ, lo ≤ hi → lo ≤ clampCh lo hi x ∧ clampCh lo hi x ≤ hi)) :=
  ⟨⟨rfl, rfl⟩, predict_length_and_range pW id [3] [25] [7] rfl rfl⟩

/-- C5: the raw network output is denormalized exactly as
`frac = (yNorm + 1) * (outputMax - outputMin) / 2 + outputMin` (the
source's `(Y_norm - (-1.0)) * (y_max - y_min) / (1.0 - (-1.0)) + y_min`
is the same rational function), and it is multiplied by 100 precisely
when `outputMax < 2.0`; the final clamp to [0,100] is applied after. -/
theorem denormalize_and_scale_policy (p : Params) (act : ℚ → ℚ) (c t v : ℚ) :
    socPercentOf p act c t v =
      (if p.y_max < 2 then specDenorm (yNormOf p act c t v) p.y_min p.y_max * 100
       else specDenorm (yNormOf p act c t v) p.y_min p.y_max) ∧
    run_neural_net_batch p act [c] [t] [v] =
      [max 0 (min 100 (socPercentOf p act c t v))] := by
  constructor
  · have h : (yNormOf p act c t v - (-1)) * (p.y_max - p.y_min) / (1 - (-1)) + p.y_min
        = specDenorm (yNormOf p act c t v) p.y_min p.y_max := by
      unfold specDenorm; ring
    simp only [socPercentOf, h]
  · rfl

/-- C6: the single-point estimate always yields a defined SOC value in
[0,100] (in exact arithmetic no numerical failure can occur; the
`except` branch of the handler, modelled by the `none` case of
`predict_single`, returns a null SOC instead of crashing). -/
theorem single_estimate_in_range_or_null (p : Params) (act : ℚ → ℚ) (c v t : ℚ) :
    ∃ s, predict_single p act c v t = some s ∧ 0 ≤ s ∧ s ≤ 100 :=
  ⟨_, rfl, le_max_left _ _, max_le (by norm_num) (min_le_left _ _)⟩

/-- C7: when the three channel arrays of a `/simulate` request disagree
in length, the endpoint returns exactly the empty result shape
`{soc: [], discharge_time: None, total_points: 0}` (the guard precedes
the neural and physics calls in `predict_cycle`). -/
theorem mismatched_lengths_empty_result (p : Params) (act : ℚ → ℚ)
    (current voltage temperature : List ℚ) (time : Option (List ℚ))
    (h : ¬(temperature.length = current.length ∧ voltage.length = current.length)) :
    predict_cycle p act current voltage temperature time = ⟨[], none, 0⟩ := by
  unfold predict_cycle
  rw [if_neg h]

theorem mismatched_lengths_empty_result_witness :
    (¬(([9, 9, 9, 9, 9] : List ℚ).length = ([1, 2, 3, 4, 5] : List ℚ).length ∧
       ([7, 7, 7, 7] : List ℚ).length = ([1, 2, 3, 4, 5] : List ℚ).length)) ∧
    predict_cycle pW id [1, 2, 3, 4, 5] [7, 7, 7, 7] [9, 9, 9, 9, 9] none =
      ⟨[], none, 0⟩ :=
  ⟨by decide,
   mismatched_lengths_empty_result pW id [1, 2, 3, 4, 5] [7, 7, 7, 7] [9, 9, 9, 9, 9]
     none (by decide)⟩

/-- C9: when `inputMax` equals `inputMin` for a channel, the
normalization denominator is replaced by the fixed constant
`EPS = 1e-9`, so normalization never divides by zero; consequently (in
the exact-arithmetic model, where neither NaN nor Inf exists) every
output of the predictor is a well-defined rational in [0,100]. -/
theorem degenerate_range_guard (p : Params) (act : ℚ → ℚ) (cs ts vs : List ℚ)
    (lo hi : ℚ) :
    (hi = lo → safeDenom lo hi = EPS) ∧
    safeDenom lo hi ≠ 0 ∧
    EPS = 1 / 1000000000 ∧
    (∀ x ∈ run_neural_net_batch p act cs ts vs, 0 ≤ x ∧ x ≤ 100) := by
  refine ⟨?_, ?_, by norm_num [EPS], nn_batch_mem p act cs ts vs⟩
  · intro h
    simp [safeDenom, h]
  · unfold safeDenom
    split_ifs with h
    · norm_num [EPS]
    · exact h

theorem degenerate_range_guard_witness :
    ((5 : ℚ) = 5) ∧
    (safeDenom 5 5 = EPS ∧ safeDenom 5 5 ≠ 0 ∧ EPS = 1 / 1000000000 ∧
     (∀ x ∈ run_neural_net_batch pW id [1] [2] [3], 0 ≤ x ∧ x ≤ 100)) :=
  ⟨rfl,
   ⟨(degenerate_range_guard pW id [1] [2] [3] 5 5).1 rfl,
    (degenerate_range_guard pW id [1] [2] [3] 5 5).2.1,
    (degenerate_range_guard pW id [1] [2] [3] 5 5).2.2.1,
    (degenerate_range_guard pW id [1] [2] [3] 5 5).2.2.2⟩⟩

/-- C10: for a nonempty batch with matching channel lengths, the seed
`START_SOC` handed to the physics integrator by `predict_cycle` is
exactly the first neural prediction: that prediction is already clamped
to [0,100], so the in-range test of line 188 always passes and the
fixed fallback `100.0` is never used. -/
theorem seed_equals_first_prediction (p : Params) (act : ℚ → ℚ) (cs ts vs : List ℚ)
    (hne : cs ≠ []) (hts : ts.length = cs.length) (hvs : vs.length = cs.length) :
    ∃ s rest, run_neural_net_batch p act cs ts vs = s :: rest ∧
      startSocOf (run_neural_net_batch p act cs ts vs) = s ∧ 0 ≤ s ∧ s ≤ 100 := by
  have hlen : (run_neural_net_batch p act cs ts vs).length = cs.length :=
    nn_batch_length p act cs ts vs hts hvs
  obtain ⟨s, rest, hcons⟩ : ∃ s rest, run_neural_net_batch p act cs ts vs = s :: rest := by
    cases hL : run_neural_net_batch p act cs ts vs with
    | nil =>
      rw [hL] at hlen
      exact absurd (List.length_eq_zero.mp hlen.symm) hne
    | cons s rest => exact ⟨s, rest, rfl⟩
  have hmem : 0 ≤ s ∧ s ≤ 100 :=
    nn_batch_mem p act cs ts vs s (hcons ▸ List.mem_cons_self s rest)
  refine ⟨s, rest, hcons, ?_, hmem.1, hmem.2⟩
  rw [hcons]
  simp [startSocOf, hmem.1, hmem.2]

theorem seed_equals_first_prediction_witness :
    (([2] : List ℚ) ≠ [] ∧ ([25] : List ℚ).length = ([2] : List ℚ).length ∧
     ([7] : List ℚ).length = ([2] : List ℚ).length) ∧
    (∃ s rest, run_neural_net_batch pW id [2] [25] [7] = s :: rest ∧
      startSocOf (run_neural_net_batch pW id [2] [25] [7]) = s ∧ 0 ≤ s ∧ s ≤ 100) :=
  ⟨⟨by decide, rfl, rfl⟩, seed_equals_first_prediction pW id [2] [25] [7] (by decide) rfl rfl⟩

lemma defaultTimes_length (n : ℕ) : (defaultTimes n).length = n := by
  simp only [defaultTimes, List.length_map, List.length_range]

lemma resolveTimes_length (t : Option (List ℚ)) (n : ℕ) :
    (resolveTimes t n).length = n := by
  cases t with
  | none => exact defaultTimes_length n
  | some ts =>
    simp only [resolveTimes]
    split_ifs with h
    · exact h
    · exact defaultTimes_length n

lemma defaultTimes_getD (n i : ℕ) (h : i < n) : (defaultTimes n).getD i 0 = (i : ℚ) := by
  have h1 : i < (defaultTimes n).length := by rw [defaultTimes_length]; exact h
  rw [List.getD_eq_getElem _ _ h1]
  simp only [defaultTimes, List.getElem_map, List.getElem_range]

/-- C8: `physics_integrate_soc` with no timestamp array, or with one
whose length differs from that of `currents`, behaves exactly as with
the explicit unit-spaced basis `[0, 1, …, N-1]`, whose consecutive
differences are all 1. -/
theorem time_basis_fallback (cs : List ℚ) (s : ℚ) :
    physics_integrate_soc cs none s
      = physics_integrate_soc cs (some (defaultTimes cs.length)) s ∧
    (∀ ts : List ℚ, ts.length ≠ cs.length →
      physics_integrate_soc cs (some ts) s = physics_integrate_soc cs none s) ∧
    (∀ i : ℕ, i + 1 < cs.length →
      (defaultTimes cs.length).getD (i + 1) 0 - (defaultTimes cs.length).getD i 0 = 1) := by
  refine ⟨?_, ?_, ?_⟩
  · have h : resolveTimes (some (defaultTimes cs.length)) cs.length
        = resolveTimes none cs.length := by
      simp [resolveTimes, defaultTimes]
    unfold physics_integrate_soc
    rw [h]
  · intro ts hts
    have h : resolveTimes (some ts) cs.length = resolveTimes none cs.length := by
      simp [resolveTimes, hts]
    unfold physics_integrate_soc
    rw [h]
  · intro i hi
    rw [defaultTimes_getD cs.length (i + 1) hi,
        defaultTimes_getD cs.length i (Nat.lt_of_succ_lt hi)]
    push_cast
    ring

theorem time_basis_fallback_witness :
    (([5, 5] : List ℚ).length ≠ ([10, 20, 30] : List ℚ).length ∧ 0 + 1 < ([10, 20, 30] : List ℚ).length) ∧
    (physics_integrate_soc [10, 20, 30] (some [5, 5]) 50 = physics_integrate_soc [10, 20, 30] none 50 ∧
     (defaultTimes ([10, 20, 30] : List ℚ).length).getD (0 + 1) 0
       - (defaultTimes ([10, 20, 30] : List ℚ).length).getD 0 0 = 1) :=
  ⟨⟨by decide, by decide⟩,
   ⟨(time_basis_fallback [10, 20, 30] 50).2.1 [5, 5] (by decide),
    (time_basis_fallback [10, 20, 30] 50).2.2 0 (by decide)⟩⟩

lemma fuse_length (P M : List ℚ) : (fuse P M).length = P.length := by
  induction P generalizing M with
  | nil => simp [fuse]
  | cons ph ps ih => simp [fuse, ih]

lemma fuse_mem (P M : List ℚ) : ∀ x ∈ fuse P M, 0 ≤ x ∧ x ≤ 100 := by
  induction P generalizing M with
  | nil => simp [fuse]
  | cons ph ps ih =>
    intro x hx
    rcases List.mem_cons.mp hx with h | h
    · subst h
      split_ifs
      · exact ⟨le_refl 0, by norm_num⟩
      · exact ⟨le_max_left _ _, max_le (by norm_num) (min_le_left _ _)⟩
    · exact ih M.tail x h

lemma fuse_getD (P M : List ℚ) (idx : ℕ) (h : idx < P.length) :
    (fuse P M).getD idx 0 =
      if P.getD idx 0 ≤ 0 then 0
      else max 0 (min 100 (ML_WEIGHT * (if idx < M.length then M.getD idx 0 else P.getD idx 0)
        + (1 - ML_WEIGHT) * P.getD idx 0)) := by
  induction P generalizing M idx with
  | nil => simp at h
  | cons ph ps ih =>
    cases idx with
    | zero =>
      cases M with
      | nil => simp [fuse]
      | cons m ms => simp [fuse]
    | succ j =>
      have hj : j < ps.length := by simpa using h
      cases M with
      | nil => simpa [fuse] using ih [] j hj
      | cons m ms => simpa [fuse, Nat.succ_lt_succ_iff] using ih ms j hj

/-- C4: `fuse` returns a list exactly as long as the physics trajectory;
wherever the physics value is ≤ 0 the output is exactly 0 regardless of
the neural value; everywhere else it is `0.35 * ml + 0.65 * ph` clamped
to [0,100], with `ml` falling back to the physics value when the index
is outside the neural trajectory; every output element is in [0,100]. -/
theorem fuse_length_range_and_blend (P M : List ℚ) :
    (fuse P M).length = P.length ∧
    (∀ idx : ℕ, idx < P.length →
      (fuse P M).getD idx 0 =
        if P.getD idx 0 ≤ 0 then 0
        else max 0 (min 100 ((0.35 : ℚ) * (if idx < M.length then M.getD idx 0 else P.getD idx 0)
          + (0.65 : ℚ) * P.getD idx 0))) ∧
    (∀ x ∈ fuse P M, 0 ≤ x ∧ x ≤ 100) := by
  refine ⟨fuse_length P M, ?_, fuse_mem P M⟩
  intro idx hidx
  have h35 : ML_WEIGHT = (0.35 : ℚ) := by norm_num [ML_WEIGHT]
  have h65 : 1 - ML_WEIGHT = (0.65 : ℚ) := by norm_num [ML_WEIGHT]
  rw [fuse_getD P M idx hidx, h65, h35]

theorem fuse_length_range_and_blend_witness :
    (0 < ([50, 0] : List ℚ).length) ∧
    (fuse [50, 0] [80, 90, 10]).getD 0 0 =
      (if ([50, 0] : List ℚ).getD 0 0 ≤ 0 then 0
       else max 0 (min 100 ((0.35 : ℚ) *
          (if 0 < ([80, 90, 10] : List ℚ).length then ([80, 90, 10] : List ℚ).getD 0 0
           else ([50, 0] : List ℚ).getD 0 0)
          + (0.65 : ℚ) * ([50, 0] : List ℚ).getD 0 0))) :=
  ⟨by decide, (fuse_length_range_and_blend [50, 0] [80, 90, 10]).2.1 0 (by decide)⟩

lemma clamp100_nonneg (x : ℚ) : 0 ≤ clamp100 x := le_max_left _ _

lemma clamp100_le_hundred (x : ℚ) : clamp100 x ≤ 100 :=
  max_le (by norm_num) (min_le_left _ _)

lemma clamp100_pos (x : ℚ) (h : 0 < x) : 0 < clamp100 x := by
  have h2 : 0 < min 100 (if 100 ≤ x then (100 : ℚ) else x) := by
    apply lt_min (by norm_num)
    split_ifs with h1
    · norm_num
    · exact h
  exact lt_max_iff.mpr (Or.inr h2)

lemma physAux_nil (soc : ℚ) : physAux soc [] = ([], none) := rfl

lemma physAux_cons_stop (soc : ℚ) (st : ℚ × ℚ × ℚ) (rest : List (ℚ × ℚ × ℚ))
    (hc : soc + deltaOf st.1 (st.2.2 - st.2.1) ≤ 0) :
    physAux soc (st :: rest) = ([0], some st.2.2) := by
  simp [physAux, hc]

lemma physAux_cons_go (soc : ℚ) (st : ℚ × ℚ × ℚ) (rest : List (ℚ × ℚ × ℚ))
    (hc : ¬ soc + deltaOf st.1 (st.2.2 - st.2.1) ≤ 0) :
    physAux soc (st :: rest) =
      (clamp100 (soc + deltaOf st.1 (st.2.2 - st.2.1)) ::
         (physAux (clamp100 (soc + deltaOf st.1 (st.2.2 - st.2.1))) rest).1,
       (physAux (clamp100 (soc + deltaOf st.1 (st.2.2 - st.2.1))) rest).2) := by
  simp [physAux, hc]

lemma firstCross_cons_stop (soc : ℚ) (st : ℚ × ℚ × ℚ) (rest : List (ℚ × ℚ × ℚ))
    (hc : soc + deltaOf st.1 (st.2.2 - st.2.1) ≤ 0) :
    firstCross soc (st :: rest) = some 0 := by
  simp [firstCross, hc]

lemma firstCross_cons_go (soc : ℚ) (st : ℚ × ℚ × ℚ) (rest : List (ℚ × ℚ × ℚ))
    (hc : ¬ soc + deltaOf st.1 (st.2.2 - st.2.1) ≤ 0) :
    firstCross soc (st :: rest) =
      (firstCross (clamp100 (soc + deltaOf st.1 (st.2.2 - st.2.1))) rest).map
        (fun k => k + 1) := by
  simp [firstCross, hc]

lemma physAux_mem (steps : List (ℚ × ℚ × ℚ)) :
    ∀ (soc : ℚ), ∀ x ∈ (physAux soc steps).1, 0 ≤ x ∧ x ≤ 100 := by
  induction steps with
  | nil => intro soc x hx; rw [physAux_nil] at hx; simp at hx
  | cons st rest ih =>
    intro soc x hx
    by_cases hc : soc + deltaOf st.1 (st.2.2 - st.2.1) ≤ 0
    · rw [physAux_cons_stop soc st rest hc] at hx
      simp only [List.mem_singleton] at hx
      subst hx
      exact ⟨le_refl 0, by norm_num⟩
    · rw [physAux_cons_go soc st rest hc] at hx
      rcases List.mem_cons.mp hx with h | h
      · subst h
        exact ⟨clamp100_nonneg _, clamp100_le_hundred _⟩
      · exact ih _ x h

lemma physAux_zero_last (steps : List (ℚ × ℚ × ℚ)) :
    ∀ (soc : ℚ) (j : ℕ), j < (physAux soc steps).1.length →
      (physAux soc steps).1.getD j 0 = 0 → j + 1 = (physAux soc steps).1.length := by
  induction steps with
  | nil => intro soc j hj _; rw [physAux_nil] at hj; simp at hj
  | cons st rest ih =>
    intro soc j hj hz
    by_cases hc : soc + deltaOf st.1 (st.2.2 - st.2.1) ≤ 0
    · rw [physAux_cons_stop soc st rest hc] at hj ⊢
      simp only [List.length_singleton] at hj ⊢
      omega
    · rw [physAux_cons_go soc st rest hc] at hj hz ⊢
      cases j with
      | zero =>
        exfalso
        rw [List.getD_cons_zero] at hz
        have hpos := clamp100_pos (soc + deltaOf st.1 (st.2.2 - st.2.1)) (not_le.mp hc)
        rw [hz] at hpos
        exact lt_irrefl 0 hpos
      | succ j =>
        rw [List.getD_cons_succ] at hz
        simp only [List.length_cons] at hj ⊢
        have hj' : j < (physAux (clamp100 (soc + deltaOf st.1 (st.2.2 - st.2.1))) rest).1.length := by
          omega
        have := ih _ j hj' hz
        omega

lemma physAux_of_none (steps : List (ℚ × ℚ × ℚ)) :
    ∀ (soc : ℚ), firstCross soc steps = none →
      (physAux soc steps).2 = none ∧ (physAux soc steps).1.length = steps.length := by
  induction steps with
  | nil => intro soc _; exact ⟨rfl, rfl⟩
  | cons st rest ih =>
    intro soc hfc
    by_cases hc : soc + deltaOf st.1 (st.2.2 - st.2.1) ≤ 0
    · rw [firstCross_cons_stop soc st rest hc] at hfc
      exact absurd hfc (by simp)
    · rw [firstCross_cons_go soc st rest hc] at hfc
      have hfc' : firstCross (clamp100 (soc + deltaOf st.1 (st.2.2 - st.2.1))) rest = none :=
        Option.map_eq_none'.mp hfc
      obtain ⟨h2, hlen⟩ := ih _ hfc'
      rw [physAux_cons_go soc st rest hc]
      exact ⟨h2, by simp [hlen]⟩

lemma physAux_of_some (steps : List (ℚ × ℚ × ℚ)) :
    ∀ (soc : ℚ) (k : ℕ), firstCross soc steps = some k →
      k < steps.length ∧ (physAux soc steps).1.length = k + 1 ∧
      (physAux soc steps).2 = some ((steps.getD k (0, 0, 0)).2.2) := by
  induction steps with
  | nil => intro soc k hfc; rw [firstCross] at hfc; exact absurd hfc (by simp)
  | cons st rest ih =>
    intro soc k hfc
    by_cases hc : soc + deltaOf st.1 (st.2.2 - st.2.1) ≤ 0
    · rw [firstCross_cons_stop soc st rest hc] at hfc
      injection hfc with hk
      subst hk
      rw [physAux_cons_stop soc st rest hc]
      exact ⟨Nat.succ_pos _, rfl, rfl⟩
    · rw [firstCross_cons_go soc st rest hc] at hfc
      obtain ⟨k', hk', hkk⟩ := Option.map_eq_some'.mp hfc
      subst hkk
      obtain ⟨hlt, hlen, h2⟩ := ih _ k' hk'
      rw [physAux_cons_go soc st rest hc]
      refine ⟨by simpa using Nat.succ_lt_succ hlt, by simp [hlen], ?_⟩
      simpa [List.getD_cons_succ] using h2

lemma mkSteps_cons (c : ℚ) (cs : List ℚ) (t t' : ℚ) (ts : List ℚ) :
    mkSteps (c :: cs) (t :: t' :: ts) = (c, t, t') :: mkSteps cs (t' :: ts) := rfl

lemma mkSteps_length (cs ts : List ℚ) (h : ts.length = cs.length) :
    (mkSteps cs ts).length = cs.length - 1 := by
  simp only [mkSteps, List.length_zipWith, List.length_zip, List.length_tail, h]
  omega

lemma mkSteps_getD (cs : List ℚ) :
    ∀ (ts : List ℚ) (k : ℕ), k < (mkSteps cs ts).length →
      (mkSteps cs ts).getD k (0, 0, 0) = (cs.getD k 0, ts.getD k 0, ts.getD (k + 1) 0) := by
  induction cs with
  | nil => intro ts k h; simp [mkSteps] at h
  | cons c cs ih =>
    intro ts k h
    rcases ts with - | ⟨t, ts⟩
    · simp [mkSteps] at h
    · rcases ts with - | ⟨t', ts'⟩
      · simp [mkSteps] at h
      · rw [mkSteps_cons] at h ⊢
        cases k with
        | zero => simp
        | succ k =>
          rw [List.getD_cons_succ, List.getD_cons_succ, List.getD_cons_succ,
            List.getD_cons_succ]
          exact ih (t' :: ts') k (by simpa using h)

lemma integrate_some_of_cross (cs : List ℚ) (t? : Option (List ℚ)) (s d : ℚ)
    (h : (physAux s (mkSteps cs (resolveTimes t? cs.length))).2 = some d) :
    physics_integrate_soc cs t? s
      = some (s :: (physAux s (mkSteps cs (resolveTimes t? cs.length))).1, d) := by
  unfold physics_integrate_soc
  rw [h]

lemma integrate_some_of_nocross (cs : List ℚ) (t? : Option (List ℚ)) (s : ℚ)
    (h : (physAux s (mkSteps cs (resolveTimes t? cs.length))).2 = none)
    (t : ℚ) (hl : (resolveTimes t? cs.length).getLast? = some t) :
    physics_integrate_soc cs t? s
      = some (s :: (physAux s (mkSteps cs (resolveTimes t? cs.length))).1, t) := by
  unfold physics_integrate_soc
  rw [h, hl]

lemma integrate_traj (cs : List ℚ) (t? : Option (List ℚ)) (s : ℚ) (traj : List ℚ) (d : ℚ)
    (hr : physics_integrate_soc cs t? s = some (traj, d)) :
    traj = s :: (physAux s (mkSteps cs (resolveTimes t? cs.length))).1 := by
  unfold physics_integrate_soc at hr
  cases h2 : (physAux s (mkSteps cs (resolveTimes t? cs.length))).2 with
  | some dd =>
    rw [h2] at hr
    injection hr with h3
    exact (congrArg Prod.fst h3).symm
  | none =>
    cases hl : (resolveTimes t? cs.length).getLast? with
    | none =>
      rw [h2, hl] at hr
      exact absurd hr (by simp)
    | some t =>
      rw [h2, hl] at hr
      injection hr with h3
      exact (congrArg Prod.fst h3).symm

/-- C1 (amended): for a start SOC in [0,100], every element of the
trajectory returned by `physics_integrate_soc` lies in [0,100]; once an
element at an index ≥ 1 equals 0 it is the last element; and no further
steps are evaluated after the first step whose `next_soc` is ≤ 0 — the
trajectory is truncated exactly there (first crossing at loop step
`k + 1` gives length `k + 2`). The initial element equals the given
start SOC and may itself be 0 without being last. -/
theorem integrate_bounded_and_discharge_stop (cs : List ℚ) (t? : Option (List ℚ))
    (start : ℚ) (traj : List ℚ) (d : ℚ)
    (h0 : 0 ≤ start) (h1 : start ≤ 100)
    (hr : physics_integrate_soc cs t? start = some (traj, d)) :
    (∀ x ∈ traj, 0 ≤ x ∧ x ≤ 100) ∧
    (∀ j : ℕ, j + 1 < traj.length → traj.getD (j + 1) 0 = 0 → j + 2 = traj.length) ∧
    (∀ k : ℕ, firstCross start (mkSteps cs (resolveTimes t? cs.length)) = some k →
      traj.length = k + 2) := by
  have htr := integrate_traj cs t? start traj d hr
  subst htr
  refine ⟨?_, ?_, ?_⟩
  · intro x hx
    rcases List.mem_cons.mp hx with h | h
    · subst h; exact ⟨h0, h1⟩
    · exact physAux_mem _ start x h
  · intro j hj hz
    rw [List.getD_cons_succ] at hz
    simp only [List.length_cons] at hj ⊢
    have hj' : j < (physAux start (mkSteps cs (resolveTimes t? cs.length))).1.length := by
      omega
    have := physAux_zero_last _ start j hj' hz
    omega
  · intro k hk
    obtain ⟨-, hlen, -⟩ := physAux_of_some _ start k hk
    simp only [List.length_cons, hlen]

/-- The original C1 is false as stated: with `startSoc = 150` the
returned trajectory is `[150]`, whose element lies outside [0,100]; and
with `startSoc = 0` and a charging step the returned trajectory is
`[0, 1]`, in which the element 0 is not the last element. -/
theorem integrate_claim_counterexample :
    (physics_integrate_soc [0] none 150 = some ([150], 0) ∧ ¬ ((150 : ℚ) ≤ 100)) ∧
    (physics_integrate_soc [972, 0] none 0 = some ([0, 1], 1) ∧
     ([0, 1] : List ℚ).getD 0 0 = 0 ∧ (0 : ℕ) + 1 ≠ ([0, 1] : List ℚ).length) :=
  ⟨⟨by decide, by norm_num⟩,
   ⟨by norm_num [physics_integrate_soc, resolveTimes, defaultTimes, mkSteps, physAux,
      deltaOf, clamp100, BATTERY_CAPACITY_AH, List.range_succ],
    by decide, by decide⟩⟩

theorem integrate_bounded_and_discharge_stop_witness :
    ((0 : ℚ) ≤ 1 ∧ (1 : ℚ) ≤ 100 ∧
     physics_integrate_soc [-1944, -1944] none 1 = some ([1, 0], 1)) ∧
    ((∀ x ∈ ([1, 0] : List ℚ), 0 ≤ x ∧ x ≤ 100) ∧
     (∀ j : ℕ, j + 1 < ([1, 0] : List ℚ).length → ([1, 0] : List ℚ).getD (j + 1) 0 = 0 →
       j + 2 = ([1, 0] : List ℚ).length) ∧
     (∀ k : ℕ, firstCross 1
         (mkSteps [-1944, -1944] (resolveTimes none ([-1944, -1944] : List ℚ).length)) = some k →
       ([1, 0] : List ℚ).length = k + 2)) :=
  ⟨⟨by norm_num, by norm_num,
    by norm_num [physics_integrate_soc, resolveTimes, defaultTimes, mkSteps, physAux,
      deltaOf, clamp100, BATTERY_CAPACITY_AH, List.range_succ]⟩,
   integrate_bounded_and_discharge_stop [-1944, -1944] none 1 [1, 0] 1
     (by norm_num) (by norm_num)
     (by norm_num [physics_integrate_soc, resolveTimes, defaultTimes, mkSteps, physAux,
       deltaOf, clamp100, BATTERY_CAPACITY_AH, List.range_succ])⟩

/-- C2 (amended): for every nonempty current series, the integrator
returns a trajectory whose element 0 is the start SOC; the length is
exactly N when no discharge occurs and `dischargeTime` is then the last
timestamp of the resolved time basis; when `next_soc ≤ 0` first occurs
at loop step `i = k + 1` the length is `i + 1 = k + 2` and
`dischargeTime = times[i]`. For N = 0 the integrator yields no result
(the source raises IndexError reading `times[-1]`), so the original
claim's "including N = 0" clause fails. -/
theorem integrate_length_and_discharge_time (cs : List ℚ) (t? : Option (List ℚ))
    (start : ℚ) (hne : cs ≠ []) :
    ∃ traj d, physics_integrate_soc cs t? start = some (traj, d) ∧
      traj.headD 0 = start ∧
      (firstCross start (mkSteps cs (resolveTimes t? cs.length)) = none →
        traj.length = cs.length ∧ d = (resolveTimes t? cs.length).getLastD 0) ∧
      (∀ k : ℕ, firstCross start (mkSteps cs (resolveTimes t? cs.length)) = some k →
        traj.length = k + 2 ∧ d = (resolveTimes t? cs.length).getD (k + 1) 0) := by
  have hn : 0 < cs.length := List.length_pos.mpr hne
  have hts : (resolveTimes t? cs.length).length = cs.length := resolveTimes_length t? cs.length
  have htsne : resolveTimes t? cs.length ≠ [] := by
    intro h
    rw [h] at hts
    simp at hts
    omega
  have hsl : (mkSteps cs (resolveTimes t? cs.length)).length = cs.length - 1 :=
    mkSteps_length cs _ hts
  cases hfc : firstCross start (mkSteps cs (resolveTimes t? cs.length)) with
  | none =>
    obtain ⟨h2, hlen⟩ := physAux_of_none _ start hfc
    have hlast : (resolveTimes t? cs.length).getLast?
        = some ((resolveTimes t? cs.length).getLast htsne) :=
      List.getLast?_eq_getLast _ htsne
    refine ⟨start :: (physAux start (mkSteps cs (resolveTimes t? cs.length))).1,
      (resolveTimes t? cs.length).getLast htsne,
      integrate_some_of_nocross cs t? start h2 _ hlast, rfl, ?_, ?_⟩
    · intro _
      constructor
      · simp only [List.length_cons, hlen, hsl]
        omega
      · rw [List.getLastD_eq_getLast?, hlast]
        rfl
    · intro k hk
      simp at hk
  | some k =>
    obtain ⟨hklt, hlen, h2⟩ := physAux_of_some _ start k hfc
    refine ⟨start :: (physAux start (mkSteps cs (resolveTimes t? cs.length))).1,
      ((mkSteps cs (resolveTimes t? cs.length)).getD k (0, 0, 0)).2.2,
      integrate_some_of_cross cs t? start _ h2, rfl, ?_, ?_⟩
    · intro h
      simp at h
    · intro k' hk'
      injection hk' with hkk
      subst hkk
      constructor
      · simp only [List.length_cons, hlen]
      · rw [mkSteps_getD cs _ k hklt]

/-- The original C2 is false for N = 0: on the empty current series the
source raises IndexError (here: no result at all), so there is no
trajectory with `startSoc` as element 0. -/
theorem integrate_empty_series_counterexample :
    physics_integrate_soc [] none 100 = none := by decide

theorem integrate_length_and_discharge_time_witness :
    (([1] : List ℚ) ≠ []) ∧
    (∃ traj d, physics_integrate_soc [1] none 50 = some (traj, d) ∧
      traj.headD 0 = 50 ∧
      (firstCross 50 (mkSteps [1] (resolveTimes none ([1] : List ℚ).length)) = none →
        traj.length = ([1] : List ℚ).length ∧
        d = (resolveTimes none ([1] : List ℚ).length).getLastD 0) ∧
      (∀ k : ℕ, firstCross 50 (mkSteps [1] (resolveTimes none ([1] : List ℚ).length)) = some k →
        traj.length = k + 2 ∧ d = (resolveTimes none ([1] : List ℚ).length).getD (k + 1) 0)) :=
  ⟨by decide, integrate_length_and_discharge_time [1] none 50 (by decide)⟩

end SOC
